import Mathlib

/-!
Verification of the borrow-interval reconstruction core of the
`ima-lab-analysis` repository, shallowly embedded in Lean 4.

Timestamps are modelled as `Option Nat` (seconds; `none` stands for
pandas `NaT`).  Each Lean definition is a direct translation of the
Python function named in its doc comment.
-/

/-- Strict comparison on optional timestamps, mirroring pandas semantics:
any comparison involving `NaT` is `False`. -/
def optLt : Option Nat → Option Nat → Bool
  | some x, some y => decide (x < y)
  | _, _ => false

/-- Non-strict sort key used by `sort_values('Time')`: `NaT` values are
placed last (pandas default `na_position='last'`). -/
def timeLE : Option Nat → Option Nat → Bool
  | some x, some y => decide (x ≤ y)
  | some _, none => true
  | none, some _ => false
  | none, none => true

/-- One raw row of the realtime log after `_validate_data`'s
`pd.to_datetime(..., errors='coerce')` (hence the optional time). -/
structure Row where
  netid : String
  name : String
  category : String
  sheet : String
  action : String
  time : Option Nat
deriving DecidableEq, Repr

/-- One reconstructed borrow record, as emitted by
`RealtimeDataLoader._process_borrow_records`. -/
structure Rec where
  start : Option Nat
  finished : Option Nat
  duration : Option Nat
  name : String
  category : String
  sheet : String
deriving DecidableEq, Repr

/-- Round a difference in seconds to whole hours with the half-to-even
rule used by Python's `round(x, 0)` (and pandas `.round(0)`). -/
def roundHourHE (diff : Nat) : Nat :=
  let q := diff / 3600
  let r := diff % 3600
  if 2 * r < 3600 then q
  else if 3600 < 2 * r then q + 1
  else if q % 2 = 0 then q else q + 1

/-- The closed record built when a Check Out row is paired with a
Check In row (`records.append({...})`, matched branch). -/
def closedRec (co ci : Row) : Rec :=
  { start := co.time
    finished := ci.time
    duration :=
      match co.time, ci.time with
      | some a, some b => some (roundHourHE (b - a))
      | _, _ => none
    name := co.name
    category := co.category
    sheet := co.sheet }

/-- The open record built for a Check Out row with no matching
Check In (`records.append({...})`, `finished: pd.NaT` branch). -/
def openRec (co : Row) : Rec :=
  { start := co.time
    finished := none
    duration := none
    name := co.name
    category := co.category
    sheet := co.sheet }

/-- Predicate for `group['Action'].isin(['Check Out', 'Check In'])`. -/
def actionValid (r : Row) : Bool :=
  r.action == "Check Out" || r.action == "Check In"

/-- Predicate for `valid_actions['Action'] == 'Check Out'`. -/
def isCheckOut (r : Row) : Bool := r.action == "Check Out"

/-- Predicate for `valid_actions['Action'] == 'Check In'`. -/
def isCheckIn (r : Row) : Bool := r.action == "Check In"

/-- Sort relation on rows induced by the `Time` column. -/
def rowLE (a b : Row) : Prop := timeLE a.time b.time = true

instance : DecidableRel rowLE := fun a b => by
  unfold rowLE; infer_instance

/-- The `sort_values('Time')` step (stable, `NaT` last). -/
def sortByTime (l : List Row) : List Row := List.insertionSort rowLE l

/-- Core matching loop of `_process_borrow_records`: iterate over the
check-out rows in time order; pair each with the earliest still-available
check-in strictly after it (`check_ins[check_ins['Time'] > co_row['Time']]`,
`iloc[0]`), then discard every available check-in carrying the matched
timestamp (`check_ins[check_ins['Time'] != ci_row['Time']]`); a check-out
with no such check-in yields an open record. -/
def matchCOs : List Row → List Row → List Rec
  | [], _ => []
  | co :: rest, cis =>
    match (cis.filter fun ci => optLt co.time ci.time).head? with
    | some ci => closedRec co ci :: matchCOs rest (cis.filter fun r => r.time != ci.time)
    | none => openRec co :: matchCOs rest cis

/-- Embedding of `RealtimeDataLoader._process_borrow_records` for the
event rows of one `(NetID, Equipment Name)` group. -/
def processBorrowRecords (group : List Row) : List Rec :=
  if (sortByTime (group.filter actionValid)).isEmpty then []
  else
    matchCOs ((sortByTime (group.filter actionValid)).filter isCheckOut)
      ((sortByTime (group.filter actionValid)).filter isCheckIn)

/-- Modelled from the spec (§4.2 IntervalReconstructor): process the
sorted events with a FIFO queue of open check-outs; a Check In pops the
oldest open check-out (or is discarded as an orphan when the queue is
empty); leftover open check-outs emit open intervals at the end.  This is
the spec-side definition used to compare against `processBorrowRecords`. -/
def fifoGo : List Row → List Row → List Rec
  | [], queue => queue.map openRec
  | e :: es, queue =>
    if isCheckIn e then
      match queue with
      | [] => fifoGo es []
      | o :: q => closedRec o e :: fifoGo es q
    else
      fifoGo es (queue ++ [e])

/-- Modelled from the spec (§4.2): strict-FIFO reconstruction of one
item's event sequence, sorted ascending by timestamp. -/
def fifoReconstructSpec (group : List Row) : List Rec :=
  fifoGo (sortByTime (group.filter actionValid)) []

/-! ### Basic facts about the timestamp comparisons -/

theorem optLt_irrefl (a : Option Nat) : optLt a a = false := by
  cases a <;> simp [optLt]

theorem optLt_asymm {a b : Option Nat} (h : optLt a b = true) : optLt b a = false := by
  cases a <;> cases b <;> simp [optLt] at h ⊢ <;> omega

theorem optLt_of_timeLE_of_ne {a b : Option Nat} (hsa : a.isSome) (hsb : b.isSome)
    (hle : timeLE a b = true) (hne : a ≠ b) : optLt a b = true := by
  cases a <;> cases b <;> simp_all [timeLE, optLt] <;> omega

theorem timeLE_total (a b : Option Nat) : timeLE a b = true ∨ timeLE b a = true := by
  cases a <;> cases b <;> simp [timeLE] <;> omega

theorem timeLE_trans {a b c : Option Nat} (h1 : timeLE a b = true)
    (h2 : timeLE b c = true) : timeLE a c = true := by
  cases a <;> cases b <;> cases c <;> simp_all [timeLE] <;> omega

theorem timeLE_antisymm {a b : Option Nat} (h1 : timeLE a b = true)
    (h2 : timeLE b a = true) : a = b := by
  cases a <;> cases b <;> simp_all [timeLE] <;> omega

instance : IsTotal Row rowLE := ⟨fun a b => timeLE_total a.time b.time⟩

instance : IsTrans Row rowLE := ⟨fun _ _ _ => timeLE_trans⟩

/-! ### The nearest-following matching and FIFO pairing coincide on
sequences of events with present, pairwise distinct timestamps -/

theorem matchCOs_nil_right : ∀ cos : List Row, matchCOs cos [] = cos.map openRec
  | [] => rfl
  | co :: rest => by
    simp [matchCOs, matchCOs_nil_right rest]

/-- A check-in that precedes (weakly) every check-out in the pool is never
selected nor removed by the matching loop: it can be dropped from the
available check-ins without changing the result. -/
theorem matchCOs_drop_orphan (e : Row) :
    ∀ (cos cis : List Row),
      (∀ co ∈ cos, optLt co.time e.time = false) →
      matchCOs cos (e :: cis) = matchCOs cos cis
  | [], _, _ => rfl
  | co :: rest, cis, h => by
    have hco : optLt co.time e.time = false := h co (List.mem_cons_self _ _)
    have hrest : ∀ c ∈ rest, optLt c.time e.time = false :=
      fun c hc => h c (List.mem_cons_of_mem _ hc)
    have hfe : (e :: cis).filter (fun ci => optLt co.time ci.time)
        = cis.filter (fun ci => optLt co.time ci.time) := by
      simp [List.filter_cons, hco]
    simp only [matchCOs, hfe]
    cases hfl : cis.filter (fun ci => optLt co.time ci.time) with
    | nil =>
      simp only [List.head?_nil]
      exact congrArg (openRec co :: ·) (matchCOs_drop_orphan e rest cis hrest)
    | cons ci t =>
      simp only [List.head?_cons]
      have hci_mem : ci ∈ cis.filter (fun c => optLt co.time c.time) := by
        rw [hfl]; exact List.mem_cons_self _ _
      have hci_lt : optLt co.time ci.time = true := by
        simpa using (List.mem_filter.1 hci_mem).2
      have hne : (e.time != ci.time) = true := by
        rcases eq_or_ne e.time ci.time with heq | hne
        · rw [← heq] at hci_lt; rw [hci_lt] at hco; cases hco
        · simpa using hne
      have hrem : (e :: cis).filter (fun r => r.time != ci.time)
          = e :: cis.filter (fun r => r.time != ci.time) := by
        simp [List.filter_cons, hne]
      rw [hrem]
      exact congrArg (closedRec co ci :: ·)
        (matchCOs_drop_orphan e rest _ hrest)

/-- Main equivalence: running the FIFO queue over the sorted event list
(carrying an initial queue of already-open check-outs that all precede the
remaining events) produces exactly what the nearest-following-match loop
produces, provided the remaining events have strictly increasing
timestamps. -/
theorem fifoGo_eq_matchCOs :
    ∀ (es queue : List Row),
      es.Pairwise (fun a b => optLt a.time b.time = true) →
      (∀ r ∈ queue, ∀ e ∈ es, optLt r.time e.time = true) →
      (∀ e ∈ es, e.action = "Check Out" ∨ e.action = "Check In") →
      fifoGo es queue
        = matchCOs (queue ++ es.filter isCheckOut) (es.filter isCheckIn)
  | [], queue, _, _, _ => by
    simp [fifoGo, matchCOs_nil_right]
  | e :: es, queue, hpw, hq, hact => by
    rcases List.pairwise_cons.1 hpw with ⟨hhead, htail⟩
    have hq_tail : ∀ r ∈ queue, ∀ x ∈ es, optLt r.time x.time = true :=
      fun r hr x hx => hq r hr x (List.mem_cons_of_mem _ hx)
    have hact_tail : ∀ x ∈ es, x.action = "Check Out" ∨ x.action = "Check In" :=
      fun x hx => hact x (List.mem_cons_of_mem _ hx)
    by_cases he : e.action = "Check In"
    · have heCI : isCheckIn e = true := by simp [isCheckIn, he]
      have heCO : isCheckOut e = false := by simp [isCheckOut, he]
      have hfo : (e :: es).filter isCheckOut = es.filter isCheckOut := by
        simp [List.filter_cons, heCO]
      have hfi : (e :: es).filter isCheckIn = e :: es.filter isCheckIn := by
        simp [List.filter_cons, heCI]
      rw [hfo, hfi]
      cases queue with
      | nil =>
        have hlhs : fifoGo (e :: es) [] = fifoGo es [] := by
          simp [fifoGo, heCI]
        rw [hlhs]
        have horphan : ∀ co ∈ ([] : List Row) ++ es.filter isCheckOut,
            optLt co.time e.time = false := by
          intro co hco
          simp only [List.nil_append] at hco
          exact optLt_asymm (hhead co (List.mem_of_mem_filter hco))
        rw [List.nil_append, matchCOs_drop_orphan e _ _ (by simpa using horphan)]
        simpa using fifoGo_eq_matchCOs es [] htail (by simp) hact_tail
      | cons o q =>
        have hlhs : fifoGo (e :: es) (o :: q) = closedRec o e :: fifoGo es q := by
          simp [fifoGo, heCI]
        rw [hlhs]
        have hoe : optLt o.time e.time = true :=
          hq o (List.mem_cons_self _ _) e (List.mem_cons_self _ _)
        have hfil : (e :: es.filter isCheckIn).filter (fun ci => optLt o.time ci.time)
            = e :: (es.filter isCheckIn).filter (fun ci => optLt o.time ci.time) := by
          simp [List.filter_cons, hoe]
        have hrem : (e :: es.filter isCheckIn).filter (fun r => r.time != e.time)
            = es.filter isCheckIn := by
          rw [List.filter_cons]
          simp only [bne_self_eq_false]
          rw [if_neg Bool.false_ne_true, List.filter_eq_self]
          intro ci hci
          have hlt : optLt e.time ci.time = true :=
            hhead ci (List.mem_of_mem_filter hci)
          rcases eq_or_ne ci.time e.time with heq | hne
          · rw [← heq] at hlt; rw [optLt_irrefl] at hlt; cases hlt
          · simpa using hne
        simp only [List.cons_append, matchCOs, hfil, List.head?_cons, hrem]
        exact congrArg (closedRec o e :: ·)
          (fifoGo_eq_matchCOs es q htail
            (fun r hr x hx => hq r (List.mem_cons_of_mem _ hr) x (List.mem_cons_of_mem _ hx))
            hact_tail)
    · have heCO' : e.action = "Check Out" := by
        rcases hact e (List.mem_cons_self _ _) with h | h
        · exact h
        · exact absurd h he
      have heCI : isCheckIn e = false := by simp [isCheckIn, heCO']
      have heCO : isCheckOut e = true := by simp [isCheckOut, heCO']
      have hfo : (e :: es).filter isCheckOut = e :: es.filter isCheckOut := by
        simp [List.filter_cons, heCO]
      have hfi : (e :: es).filter isCheckIn = es.filter isCheckIn := by
        simp [List.filter_cons, heCI]
      have hlhs : fifoGo (e :: es) queue = fifoGo es (queue ++ [e]) := by
        simp [fifoGo, heCI]
      rw [hlhs, hfo, hfi]
      have happ : queue ++ (e :: es.filter isCheckOut)
          = (queue ++ [e]) ++ es.filter isCheckOut := by
        simp
      rw [happ]
      exact fifoGo_eq_matchCOs es (queue ++ [e]) htail
        (by
          intro r hr x hx
          rcases List.mem_append.1 hr with hr | hr
          · exact hq_tail r hr x hx
          · rw [List.mem_singleton.1 hr]
            exact hhead x hx)
        hact_tail

/-- A helper row constructor used only in concrete test inputs. -/
def mkRow (netid name action : String) (t : Option Nat) : Row :=
  { netid := netid, name := name, category := "Cameras", sheet := "Fall 2025",
    action := action, time := t }

/-! ### Claim C1 -/

/-- Timestamp-distinctness transfers through the sort and yields the
strict pairwise ordering needed by `fifoGo_eq_matchCOs`. -/
theorem sortByTime_pairwise_optLt (base : List Row)
    (hsome : ∀ r ∈ base, r.time.isSome)
    (hnodup : (base.map (fun r => r.time)).Nodup) :
    (sortByTime base).Pairwise (fun a b => optLt a.time b.time = true) := by
  have hperm : List.Perm (sortByTime base) base := List.perm_insertionSort rowLE base
  have hsorted : (sortByTime base).Pairwise rowLE :=
    List.sorted_insertionSort rowLE base
  have hsome' : ∀ r ∈ sortByTime base, r.time.isSome :=
    fun r hr => hsome r (hperm.subset hr)
  have hnodup' : ((sortByTime base).map (fun r => r.time)).Nodup :=
    ((hperm.map (fun r => r.time)).nodup_iff).2 hnodup
  have hne : (sortByTime base).Pairwise (fun a b => a.time ≠ b.time) :=
    List.pairwise_map.1 hnodup'
  exact (hsorted.and hne).imp_of_mem
    (fun {a b} ha hb hab =>
      optLt_of_timeLE_of_ne (hsome' a ha) (hsome' b hb) hab.1 hab.2)

/-- C1 (amended): for every item's event sequence whose valid
(Check Out / Check In) events carry present, pairwise-distinct timestamps,
the loader's reconstruction agrees exactly with strict FIFO pairing on the
time-sorted sequence: each CheckIn closes the oldest still-open CheckOut,
an orphan CheckIn (empty open queue) is discarded, and leftover CheckOuts
emit open intervals. -/
theorem claim1_fifo_pairing_distinct_times (group : List Row)
    (hsome : ∀ r ∈ group.filter actionValid, r.time.isSome)
    (hnodup : ((group.filter actionValid).map (fun r => r.time)).Nodup) :
    processBorrowRecords group = fifoReconstructSpec group := by
  have hperm : List.Perm (sortByTime (group.filter actionValid)) (group.filter actionValid) :=
    List.perm_insertionSort rowLE _
  have hpw := sortByTime_pairwise_optLt (group.filter actionValid) hsome hnodup
  have hact : ∀ e ∈ sortByTime (group.filter actionValid),
      e.action = "Check Out" ∨ e.action = "Check In" := by
    intro e hee
    have hv : actionValid e = true := (List.mem_filter.1 (hperm.subset hee)).2
    simp only [actionValid, Bool.or_eq_true, beq_iff_eq] at hv
    exact hv
  have hmain := fifoGo_eq_matchCOs (sortByTime (group.filter actionValid)) []
    hpw (by simp) hact
  by_cases hv : (sortByTime (group.filter actionValid)).isEmpty
  · have hnil : sortByTime (group.filter actionValid) = [] :=
      List.isEmpty_iff.1 hv
    unfold processBorrowRecords fifoReconstructSpec
    rw [if_pos hv, hnil]
    rfl
  · unfold processBorrowRecords fifoReconstructSpec
    rw [if_neg hv, hmain, List.nil_append]

/-- A batch with two CheckOuts and two CheckIns at the same timestamp:
the loader matches the first CheckIn, then discards every remaining
CheckIn carrying that timestamp, so the second CheckOut stays open;
strict FIFO pairing would close both. -/
def dupCIBatch : List Row :=
  [mkRow "u1" "CAM-01" "Check Out" (some 36000),
   mkRow "u1" "CAM-01" "Check Out" (some 39600),
   mkRow "u1" "CAM-01" "Check In" (some 43200),
   mkRow "u1" "CAM-01" "Check In" (some 43200)]

/-- C1 counterexample: on `dupCIBatch` the code does not implement strict
FIFO pairing — the second same-timestamp CheckIn is discarded even though
a CheckOut is still open, leaving an open interval where FIFO pairing
closes it. -/
theorem claim1_fifo_pairing_counterexample :
    processBorrowRecords dupCIBatch
      = [{ start := some 36000, finished := some 43200, duration := some 2,
           name := "CAM-01", category := "Cameras", sheet := "Fall 2025" },
         { start := some 39600, finished := none, duration := none,
           name := "CAM-01", category := "Cameras", sheet := "Fall 2025" }]
    ∧ fifoReconstructSpec dupCIBatch
      = [{ start := some 36000, finished := some 43200, duration := some 2,
           name := "CAM-01", category := "Cameras", sheet := "Fall 2025" },
         { start := some 39600, finished := some 43200, duration := some 1,
           name := "CAM-01", category := "Cameras", sheet := "Fall 2025" }]
    ∧ processBorrowRecords dupCIBatch ≠ fifoReconstructSpec dupCIBatch := by
  refine ⟨by decide, by decide, by decide⟩

/-- C1 witness: the amended theorem applied to a concrete batch with
distinct timestamps. -/
theorem claim1_fifo_pairing_distinct_times_witness :
    (∀ r ∈ ([mkRow "u1" "CAM-01" "Check Out" (some 32400),
             mkRow "u1" "CAM-01" "Check Out" (some 36000),
             mkRow "u1" "CAM-01" "Check In" (some 39600),
             mkRow "u1" "CAM-01" "Check In" (some 43200)].filter actionValid),
        r.time.isSome)
    ∧ processBorrowRecords
        [mkRow "u1" "CAM-01" "Check Out" (some 32400),
         mkRow "u1" "CAM-01" "Check Out" (some 36000),
         mkRow "u1" "CAM-01" "Check In" (some 39600),
         mkRow "u1" "CAM-01" "Check In" (some 43200)]
      = fifoReconstructSpec
        [mkRow "u1" "CAM-01" "Check Out" (some 32400),
         mkRow "u1" "CAM-01" "Check Out" (some 36000),
         mkRow "u1" "CAM-01" "Check In" (some 39600),
         mkRow "u1" "CAM-01" "Check In" (some 43200)] :=
  ⟨by decide,
   claim1_fifo_pairing_distinct_times _ (by decide) (by decide)⟩

/-! ### Claim C2: grouping by (NetID, Equipment Name) and order insensitivity -/

/-- Lexicographic comparison of character lists, modelling the ascending
key order used by `DataFrame.groupby` (and SQLite text collation). -/
def lexLe : List Char → List Char → Bool
  | [], _ => true
  | _ :: _, [] => false
  | a :: as, b :: bs =>
    if a < b then true
    else if b < a then false
    else lexLe as bs

theorem lexLe_total : ∀ a b : List Char, lexLe a b = true ∨ lexLe b a = true
  | [], _ => Or.inl rfl
  | _ :: _, [] => Or.inr rfl
  | a :: as, b :: bs => by
    rcases lt_trichotomy a b with h | h | h
    · left; simp [lexLe, h]
    · subst h
      rcases lexLe_total as bs with ih | ih
      · left; simp [lexLe, lt_irrefl, ih]
      · right; simp [lexLe, lt_irrefl, ih]
    · right; simp [lexLe, h]

theorem lexLe_antisymm : ∀ a b : List Char,
    lexLe a b = true → lexLe b a = true → a = b
  | [], [], _, _ => rfl
  | [], _ :: _, _, h2 => by cases h2
  | _ :: _, [], h1, _ => by cases h1
  | a :: as, b :: bs, h1, h2 => by
    rcases lt_trichotomy a b with h | h | h
    · rw [lexLe] at h2
      simp [h, asymm h] at h2
    · subst h
      simp only [lexLe, lt_irrefl, if_false] at h1 h2
      rw [lexLe_antisymm as bs h1 h2]
    · rw [lexLe] at h1
      simp [h, asymm h] at h1

theorem lexLe_trans : ∀ a b c : List Char,
    lexLe a b = true → lexLe b c = true → lexLe a c = true
  | [], _, _, _, _ => rfl
  | _ :: _, [], _, h1, _ => by cases h1
  | _ :: _, _ :: _, [], _, h2 => by cases h2
  | a :: as, b :: bs, c :: cs, h1, h2 => by
    rw [lexLe] at h1 h2 ⊢
    rcases lt_trichotomy a b with hab | hab | hab
    · rcases lt_trichotomy b c with hbc | hbc | hbc
      · simp [lt_trans hab hbc]
      · subst hbc; simp [hab]
      · simp [hbc, asymm hbc] at h2
    · subst hab
      rcases lt_trichotomy a c with hbc | hbc | hbc
      · simp [hbc]
      · subst hbc
        simp only [lt_irrefl, if_false] at h1 h2 ⊢
        exact lexLe_trans as bs cs h1 h2
      · simp [hbc, asymm hbc] at h2
    · simp [hab, asymm hab] at h1

/-- Comparison of strings via their character lists. -/
def strLe (a b : String) : Bool := lexLe a.data b.data

theorem strLe_antisymm {a b : String} (h1 : strLe a b = true)
    (h2 : strLe b a = true) : a = b := by
  cases a; cases b
  exact congrArg String.mk (lexLe_antisymm _ _ h1 h2)

/-- Ascending order on `(NetID, Equipment Name)` keys, as produced by
`groupby(['NetID', 'Equipment Name'])`. -/
def keyLE (a b : String × String) : Prop :=
  (if a.1 = b.1 then strLe a.2 b.2 else strLe a.1 b.1) = true

instance : DecidableRel keyLE := fun a b => by
  unfold keyLE; infer_instance

instance : IsTotal (String × String) keyLE :=
  ⟨by
    intro a b
    unfold keyLE
    rcases eq_or_ne a.1 b.1 with h | h
    · simp only [h, if_pos rfl]
      exact lexLe_total _ _
    · simp only [if_neg h, if_neg (Ne.symm h)]
      exact lexLe_total _ _⟩

instance : IsTrans (String × String) keyLE :=
  ⟨by
    intro a b c h1 h2
    unfold keyLE at h1 h2 ⊢
    rcases eq_or_ne a.1 b.1 with hab | hab <;>
      rcases eq_or_ne b.1 c.1 with hbc | hbc
    · rw [if_pos hab] at h1
      rw [if_pos hbc] at h2
      rw [if_pos (hab.trans hbc)]
      exact lexLe_trans _ _ _ h1 h2
    · rw [if_neg hbc] at h2
      rw [if_neg (hab ▸ hbc), hab]
      exact h2
    · rw [if_neg hab] at h1
      rw [if_neg (hbc ▸ hab), ← hbc]
      exact h1
    · rw [if_neg hab] at h1
      rw [if_neg hbc] at h2
      rcases eq_or_ne a.1 c.1 with hac | hac
      · exact absurd (strLe_antisymm h1 (hac ▸ h2)) hab
      · rw [if_neg hac]
        exact lexLe_trans _ _ _ h1 h2⟩

instance : IsAntisymm (String × String) keyLE :=
  ⟨by
    intro a b h1 h2
    unfold keyLE at h1 h2
    rcases eq_or_ne a.1 b.1 with hab | hab
    · rw [if_pos hab] at h1
      rw [if_pos hab.symm] at h2
      exact Prod.ext hab (strLe_antisymm h1 h2)
    · rw [if_neg hab] at h1
      rw [if_neg (Ne.symm hab)] at h2
      exact absurd (strLe_antisymm h1 h2) hab⟩

/-- The `(NetID, Equipment Name)` grouping key of a raw row. -/
def rowKey (r : Row) : String × String := (r.netid, r.name)

/-- The distinct group keys in ascending order, as enumerated by
`df_raw.groupby(['NetID', 'Equipment Name'])`. -/
def groupKeys (batch : List Row) : List (String × String) :=
  List.insertionSort keyLE (batch.map rowKey).dedup

/-- Embedding of the grouped reconstruction in `RealtimeDataLoader.load`:
`df_raw.groupby(['NetID', 'Equipment Name'], group_keys=False)
.apply(self._process_borrow_records)` — each key's rows are processed
independently and the per-group records are concatenated in key order. -/
def groupedReconstruct (batch : List Row) : List Rec :=
  ((groupKeys batch).map
    (fun k => processBorrowRecords (batch.filter (fun r => rowKey r == k)))).join

theorem groupKeys_eq_of_perm {b1 b2 : List Row} (hp : List.Perm b1 b2) :
    groupKeys b1 = groupKeys b2 := by
  apply List.eq_of_perm_of_sorted (r := keyLE)
  · exact (List.perm_insertionSort keyLE _).trans
      (((hp.map rowKey).dedup).trans (List.perm_insertionSort keyLE _).symm)
  · exact List.sorted_insertionSort keyLE _
  · exact List.sorted_insertionSort keyLE _

/-- Two sorted row lists that are permutations of one another and have
pairwise-distinct `Time` values are equal. -/
theorem rows_eq_of_perm_of_sorted_of_nodup (s1 s2 : List Row)
    (hp : List.Perm s1 s2) (h1 : s1.Pairwise rowLE) (h2 : s2.Pairwise rowLE)
    (hnd : (s1.map (fun r => r.time)).Nodup) : s1 = s2 := by
  have hnd2 : (s2.map (fun r => r.time)).Nodup :=
    ((hp.map (fun r => r.time)).nodup_iff).1 hnd
  have anti : IsAntisymm Row (fun a b => rowLE a b ∧ (a = b ∨ a.time ≠ b.time)) := by
    constructor
    intro a b hab hba
    rcases hab.2 with h | h
    · exact h
    · exact absurd (timeLE_antisymm hab.1 hba.1) h
  refine @List.eq_of_perm_of_sorted Row
    (fun a b => rowLE a b ∧ (a = b ∨ a.time ≠ b.time)) anti s1 s2 hp ?_ ?_
  · exact (h1.and (List.pairwise_map.1 hnd)).imp
      (fun h => ⟨h.1, Or.inr h.2⟩)
  · exact (h2.and (List.pairwise_map.1 hnd2)).imp
      (fun h => ⟨h.1, Or.inr h.2⟩)

/-- Sorting is insensitive to the input order when timestamps are
pairwise distinct. -/
theorem sortByTime_eq_of_perm {l1 l2 : List Row} (hp : List.Perm l1 l2)
    (hnd : (l1.map (fun r => r.time)).Nodup) :
    sortByTime l1 = sortByTime l2 := by
  apply rows_eq_of_perm_of_sorted_of_nodup
  · exact (List.perm_insertionSort rowLE l1).trans
      (hp.trans (List.perm_insertionSort rowLE l2).symm)
  · exact List.sorted_insertionSort rowLE l1
  · exact List.sorted_insertionSort rowLE l2
  · exact ((List.perm_insertionSort rowLE l1).map (fun r => r.time)).nodup_iff.2 hnd

/-- C2 (amended): reconstruction of a batch is a deterministic function of
the batch (two runs on the identical input are equal), and it is
insensitive to any reordering of the input events provided that, within
each (NetID, Equipment Name) group, the valid Check Out / Check In events
carry pairwise-distinct timestamps. -/
theorem claim2_reconstruct_order_insensitive (b1 b2 : List Row)
    (hp : List.Perm b1 b2)
    (hnd : ∀ k ∈ groupKeys b1,
      (((b1.filter (fun r => rowKey r == k)).filter actionValid).map
        (fun r => r.time)).Nodup) :
    groupedReconstruct b1 = groupedReconstruct b1
    ∧ groupedReconstruct b1 = groupedReconstruct b2 := by
  refine ⟨rfl, ?_⟩
  unfold groupedReconstruct
  rw [groupKeys_eq_of_perm hp]
  refine congrArg List.join (List.map_congr_left ?_)
  intro k hk
  have hk1 : k ∈ groupKeys b1 := by rwa [groupKeys_eq_of_perm hp]
  have hgperm : List.Perm
      ((b1.filter (fun r => rowKey r == k)).filter actionValid)
      ((b2.filter (fun r => rowKey r == k)).filter actionValid) :=
    (hp.filter (fun r => rowKey r == k)).filter actionValid
  have hsort := sortByTime_eq_of_perm hgperm (hnd k hk1)
  unfold processBorrowRecords
  rw [hsort]

/-- Two batches that are permutations of one another: the same group,
two CheckOuts at the same instant from different sheets. -/
def tieBatch1 : List Row :=
  [{ netid := "u1", name := "CAM-01", category := "Cameras",
     sheet := "Fall 2025", action := "Check Out", time := some 36000 },
   { netid := "u1", name := "CAM-01", category := "Cameras",
     sheet := "Spring 2026", action := "Check Out", time := some 36000 },
   mkRow "u1" "CAM-01" "Check In" (some 39600),
   mkRow "u1" "CAM-01" "Check In" (some 43200)]

/-- The same four events with the two tied CheckOuts swapped. -/
def tieBatch2 : List Row :=
  [{ netid := "u1", name := "CAM-01", category := "Cameras",
     sheet := "Spring 2026", action := "Check Out", time := some 36000 },
   { netid := "u1", name := "CAM-01", category := "Cameras",
     sheet := "Fall 2025", action := "Check Out", time := some 36000 },
   mkRow "u1" "CAM-01" "Check In" (some 39600),
   mkRow "u1" "CAM-01" "Check In" (some 43200)]

/-- C2 counterexample: a timestamp-preserving permutation of the input
(swapping two CheckOuts that share a timestamp) changes the reconstructed
interval set — not merely its order. -/
theorem claim2_order_insensitivity_counterexample :
    List.Perm tieBatch1 tieBatch2
    ∧ groupedReconstruct tieBatch1 ≠ groupedReconstruct tieBatch2
    ∧ ¬ List.Perm (groupedReconstruct tieBatch1) (groupedReconstruct tieBatch2) := by
  refine ⟨by decide, by decide, by decide⟩

/-- C2 witness: the amended theorem applied to a concrete batch and a
concrete reordering of it. -/
theorem claim2_reconstruct_order_insensitive_witness :
    List.Perm
      [mkRow "u2" "MIC-02" "Check Out" (some 7200),
       mkRow "u2" "MIC-02" "Check In" (some 10800)]
      [mkRow "u2" "MIC-02" "Check In" (some 10800),
       mkRow "u2" "MIC-02" "Check Out" (some 7200)]
    ∧ groupedReconstruct
        [mkRow "u2" "MIC-02" "Check Out" (some 7200),
         mkRow "u2" "MIC-02" "Check In" (some 10800)]
      = groupedReconstruct
        [mkRow "u2" "MIC-02" "Check In" (some 10800),
         mkRow "u2" "MIC-02" "Check Out" (some 7200)] :=
  ⟨by decide,
   (claim2_reconstruct_order_insensitive _ _ (by decide) (by decide)).2⟩

/-! ### Claims C3 and C8: cross-source deduplication (`init_data.py`) -/

/-- One unified interval record as handled by `init_database`
(historical or realtime).  The transient `Start_min` helper column is
modelled as an optional field; `none` means the column is absent. -/
structure DedupRec where
  start : Option Nat
  name : String
  category : String
  source : String
  startMin : Option Nat
deriving DecidableEq, Repr

/-- The minute truncation `Start.dt.floor('min')` (propagating `NaT`). -/
def floorMin : Option Nat → Option Nat
  | some t => some (t / 60 * 60)
  | none => none

/-- Assignment of the `Start_min` column
(`df['Start_min'] = df['Start'].dt.floor('min')`). -/
def withStartMin (r : DedupRec) : DedupRec :=
  { r with startMin := floorMin r.start }

/-- Removal of the `Start_min` column
(`df.drop(columns=['Start_min'], errors='ignore')`). -/
def dropStartMin (r : DedupRec) : DedupRec :=
  { r with startMin := none }

/-- The membership test
`(x['Start_min'], x['item name(with num)']) in hist_keys`, negated
(`~df_realtime.apply(...)` keeps the rows NOT in the historical key set). -/
def keepRealtime (hk : List (Option Nat × String)) (r : DedupRec) : Bool :=
  !(hk.contains (r.startMin, r.name))

/-- Embedding of the deduplication block of `init_database`
(src/init_data.py, lines 41-66): when both frames are non-empty, a
`Start_min` column is added to BOTH frames (`pd.to_datetime` on an
already-parsed `Start` is the identity here), realtime rows whose
`(Start_min, item name(with num))` key appears among the historical keys
are removed, and the helper column is dropped from the realtime frame
only.  The result is the final state of `(df_historical, df_realtime)`. -/
def initDedup (h r : List DedupRec) : List DedupRec × List DedupRec :=
  if r.isEmpty then (h, r)
  else if h.isEmpty then (h, r)
  else
    (h.map withStartMin,
     (((r.map withStartMin).filter
        (keepRealtime ((h.map withStartMin).map (fun x => (x.startMin, x.name))))).map
       dropStartMin))

/-- The filtered realtime frame that `init_database` goes on to insert. -/
def dedupRealtime (h r : List DedupRec) : List DedupRec := (initDedup h r).2

theorem dropStartMin_withStartMin (r : DedupRec) :
    dropStartMin (withStartMin r) = dropStartMin r := rfl

theorem withStartMin_dropStartMin_withStartMin (r : DedupRec) :
    withStartMin (dropStartMin (withStartMin r)) = withStartMin r := rfl

theorem dropStartMin_eq_self {r : DedupRec} (h : r.startMin = none) :
    dropStartMin r = r := by
  cases r
  simp_all [dropStartMin]

/-- C3 counterexample: with one historical and one realtime record, the
call leaves the historical frame changed — the helper `Start_min` column
has been added to it (and is never removed). -/
theorem claim3_dedup_mutates_historical_counterexample :
    (initDedup
      [{ start := some 120, name := "CAM-01 3", category := "Cameras",
         source := "historical", startMin := none }]
      [{ start := some 300, name := "MIC-02 1", category := "Microphones",
         source := "realtime", startMin := none }]).1
    ≠ [{ start := some 120, name := "CAM-01 3", category := "Cameras",
         source := "historical", startMin := none }] := by
  decide

/-- C3 (amended): deduplication adds the transient `Start_min` helper
column to the historical frame, but preserves every other field, every
row and the row order of H; the realtime output is a subsequence (filtered
copy) of R with its fields unchanged; an empty H or R short-circuits with
both frames returned untouched. -/
theorem claim3_dedup_frame_effect (H R : List DedupRec)
    (hH : ∀ r ∈ H, r.startMin = none) (hR : ∀ r ∈ R, r.startMin = none) :
    ((initDedup H R).1).map dropStartMin = H
    ∧ List.Sublist ((initDedup H R).2) R
    ∧ (R = [] → initDedup H R = (H, R))
    ∧ (H = [] → initDedup H R = (H, R)) := by
  have hmapH : H.map dropStartMin = H := by
    have h1 : H.map dropStartMin = H.map id :=
      List.map_congr_left (fun r hr => dropStartMin_eq_self (hH r hr))
    simpa using h1
  have hmapR : R.map dropStartMin = R := by
    have h1 : R.map dropStartMin = R.map id :=
      List.map_congr_left (fun r hr => dropStartMin_eq_self (hR r hr))
    simpa using h1
  unfold initDedup
  by_cases hr : R.isEmpty
  · rw [if_pos hr]
    exact ⟨hmapH, List.Sublist.refl R, fun _ => rfl, fun _ => rfl⟩
  · rw [if_neg hr]
    by_cases hh : H.isEmpty
    · rw [if_pos hh]
      refine ⟨hmapH, List.Sublist.refl R, fun hRnil => absurd ?_ hr, fun _ => rfl⟩
      rw [hRnil]; rfl
    · rw [if_neg hh]
      refine ⟨?_, ?_, fun hRnil => absurd ?_ hr, fun hHnil => absurd ?_ hh⟩
      · rw [List.map_map]
        calc H.map (dropStartMin ∘ withStartMin)
            = H.map dropStartMin := by
              exact List.map_congr_left (fun r _ => dropStartMin_withStartMin r)
          _ = H := hmapH
      · calc
          (((R.map withStartMin).filter _).map dropStartMin).Sublist
              ((R.map withStartMin).map dropStartMin) :=
            List.Sublist.map dropStartMin (List.filter_sublist _)
          _ = R := by
            rw [List.map_map]
            have h2 : R.map (dropStartMin ∘ withStartMin) = R.map dropStartMin :=
              List.map_congr_left (fun r _ => dropStartMin_withStartMin r)
            rw [h2, hmapR]
      · rw [hRnil]; rfl
      · rw [hHnil]; rfl

/-- C3 witness: the amended theorem applied at concrete one-row frames. -/
theorem claim3_dedup_frame_effect_witness :
    ((initDedup
        [{ start := some 120, name := "CAM-01 3", category := "Cameras",
           source := "historical", startMin := none }]
        [{ start := some 300, name := "MIC-02 1", category := "Microphones",
           source := "realtime", startMin := none }]).1).map dropStartMin
      = [{ start := some 120, name := "CAM-01 3", category := "Cameras",
           source := "historical", startMin := none }]
    ∧ List.Sublist
        (initDedup
          [{ start := some 120, name := "CAM-01 3", category := "Cameras",
             source := "historical", startMin := none }]
          [{ start := some 300, name := "MIC-02 1", category := "Microphones",
             source := "realtime", startMin := none }]).2
        [{ start := some 300, name := "MIC-02 1", category := "Microphones",
           source := "realtime", startMin := none }] :=
  ⟨(claim3_dedup_frame_effect _ _ (by decide) (by decide)).1,
   (claim3_dedup_frame_effect _ _ (by decide) (by decide)).2.1⟩

/-- C8 (as stated): deduplicating the already-deduplicated realtime frame
against the same historical frame changes nothing. -/
theorem claim8_dedup_idempotent (H R : List DedupRec) :
    dedupRealtime H (dedupRealtime H R) = dedupRealtime H R := by
  unfold dedupRealtime initDedup
  by_cases hr : R.isEmpty
  · have : R = [] := List.isEmpty_iff.1 hr
    subst this
    simp
  · rw [if_neg hr]
    by_cases hh : H.isEmpty
    · rw [if_pos hh, if_neg hr, if_pos hh]
    · rw [if_neg hh]
      set p := keepRealtime ((H.map withStartMin).map (fun x => (x.startMin, x.name)))
        with hp
      set R' := ((R.map withStartMin).filter p).map dropStartMin with hR'
      by_cases hr' : R'.isEmpty
      · rw [if_pos hr']
      · rw [if_neg hr', if_neg hh]
        have hmap : R'.map withStartMin = (R.map withStartMin).filter p := by
          rw [hR', List.map_map]
          have : ((R.map withStartMin).filter p).map (withStartMin ∘ dropStartMin)
              = ((R.map withStartMin).filter p).map id := by
            apply List.map_congr_left
            intro x hx
            have hx' : x ∈ R.map withStartMin :=
              List.mem_of_mem_filter hx
            rcases List.mem_map.1 hx' with ⟨r0, _, hr0⟩
            rw [← hr0]
            exact withStartMin_dropStartMin_withStartMin r0
          rw [this, List.map_id]
        rw [hmap, List.filter_filter]
        simp only [Bool.and_self]

/-! ### Claim C4: end-date handling in the two query layers -/

/-- One stored database row as seen by `DatabaseManager.query`: the
`Start` column holds a TEXT timestamp (`'YYYY-MM-DD HH:MM:SS'`, as
written by `DataFrame.to_sql`), compared bytewise by SQLite. -/
structure SqlRow where
  start : String
  source : String
deriving DecidableEq, Repr

/-- The `Start >= ?` condition of `DatabaseManager.query` (text
comparison against the caller's `start_date` string). -/
def dbApplyStart : Option String → List SqlRow → List SqlRow
  | none, rows => rows
  | some s, rows => rows.filter (fun r => strLe s r.start)

/-- The `Start <= ?` condition of `DatabaseManager.query` (text
comparison against the caller's `end_date` string). -/
def dbApplyEnd : Option String → List SqlRow → List SqlRow
  | none, rows => rows
  | some e, rows => rows.filter (fun r => strLe r.start e)

/-- Embedding of the date-range conditions built by
`DatabaseManager.query` (src/data/database.py, lines 147-153). -/
def dbQueryDateFilter (startD endD : Option String) (rows : List SqlRow) : List SqlRow :=
  dbApplyEnd endD (dbApplyStart startD rows)

/-- A record as seen by `DataProcessor.filter_by_date` after date
parsing: `Start` is a parsed timestamp (`none` = NaT). -/
structure ProcRec where
  start : Option Nat
deriving DecidableEq, Repr

/-- Pandas comparison of possibly-missing timestamps: any comparison
involving `NaT` is `False`. -/
def pdLe : Option Nat → Option Nat → Bool
  | some x, some y => decide (x ≤ y)
  | _, _ => false

/-- Embedding of `DataProcessor.filter_by_date`
(src/data/processors/data_processor.py, lines 100-113): the arguments are
the timestamps that `parse_date_str` produced from the two date strings
(midnight of the named day); a given end date is widened to
`end + 1 day - 1 second` before the `<=` comparison. -/
def procApplyStart : Option Nat → List ProcRec → List ProcRec
  | none, df => df
  | some s, df => df.filter (fun r => pdLe (some s) r.start)

def procApplyEnd : Option Nat → List ProcRec → List ProcRec
  | none, df => df
  | some e, df => df.filter (fun r => pdLe r.start (some (e + 86400 - 1)))

def filterByDate (startD endD : Option Nat) (df : List ProcRec) : List ProcRec :=
  procApplyEnd endD (procApplyStart startD df)

/-- C4 counterexample: `DatabaseManager.query` with `end_date =
'2025-12-31'` drops a record that starts at 10:00 on that very day,
because the TEXT comparison `'2025-12-31 10:00:00' <= '2025-12-31'` is
false — the end date is not treated as inclusive of the whole day by this
query layer. -/
theorem claim4_end_date_counterexample :
    dbQueryDateFilter none (some "2025-12-31")
      [{ start := "2025-12-31 10:00:00", source := "realtime" }] = []
    ∧ "2025-12-31 10:00:00".data.take 10 = "2025-12-31".data := by
  refine ⟨by decide, by decide⟩

/-- C4 (amended): `DataProcessor.filter_by_date` does treat the end date
as inclusive of the entire calendar day — a record whose start falls at
any second of the end day is retained — but `DatabaseManager.query`
compares the `Start` text directly against the given `end_date` string,
so records later in the end day than the given instant are dropped by
that layer. -/
theorem claim4_filter_by_date_end_inclusive (endDay : Nat) (df : List ProcRec)
    (r : ProcRec) (hr : r ∈ df) (t : Nat) (ht : r.start = some t)
    (hlo : endDay * 86400 ≤ t) (hhi : t < (endDay + 1) * 86400) :
    r ∈ filterByDate none (some (endDay * 86400)) df := by
  unfold filterByDate
  refine List.mem_filter.2 ⟨hr, ?_⟩
  simp only [pdLe, ht, decide_eq_true_eq]
  omega

/-- C4 witness: the amended theorem applied to a concrete record starting
at 10:00 on day 3, with the end date set to day 3. -/
theorem claim4_filter_by_date_end_inclusive_witness :
    (3 : Nat) * 86400 ≤ 295200 ∧ 295200 < (3 + 1) * 86400
    ∧ ({ start := some 295200 } : ProcRec)
        ∈ filterByDate none (some (3 * 86400)) [{ start := some 295200 }] :=
  ⟨by decide, by decide,
   claim4_filter_by_date_end_inclusive 3 _ _ (List.mem_cons_self _ _) 295200
     rfl (by decide) (by decide)⟩

/-! ### Claim C5: the start-presence invariant is broken by unparsed
timestamps -/

/-- C5 (code bug exhibit): `_validate_data` drops rows with missing
required fields BEFORE coercing the `Time` strings
(`pd.to_datetime(..., errors='coerce')`), so a Check Out whose timestamp
string fails to parse reaches `_process_borrow_records` with `Time = NaT`
— and is emitted as an open interval whose `Start` is missing, violating
the invariant that `start` is always present. -/
theorem claim5_missing_start_code_bug :
    (processBorrowRecords [mkRow "u1" "CAM-01" "Check Out" none]).map (fun r => r.start)
      = [none]
    ∧ processBorrowRecords [mkRow "u1" "CAM-01" "Check Out" none] ≠ [] := by
  refine ⟨by decide, by decide⟩

/-! ### Claim C6: the daily occupancy timeline
(`DurationAnalysis._build_daily_timeline`) -/

/-- One analysis-ready record (output of `prepare_for_analysis`): `Start`
is present, `finished` may be missing, `duration (hours)` may be NA. -/
structure DbRec where
  start : Nat
  finished : Option Nat
  duration : Option Int
  nameWithNum : String
deriving DecidableEq, Repr

/-- The minimum of a list of timestamps (`events['time'].min()`);
meaningful only for non-empty lists. -/
def natListMin : List Nat → Nat
  | [] => 0
  | t :: ts => ts.foldl min t

/-- The maximum of a list of timestamps (`events['time'].max()`);
meaningful only for non-empty lists. -/
def natListMax : List Nat → Nat
  | [] => 0
  | t :: ts => ts.foldl max t

theorem foldl_min_spec (l : List Nat) : ∀ a : Nat,
    (l.foldl min a = a ∨ l.foldl min a ∈ l)
    ∧ l.foldl min a ≤ a ∧ ∀ x ∈ l, l.foldl min a ≤ x := by
  induction l with
  | nil => intro a; simp
  | cons b ts ih =>
    intro a
    obtain ⟨hmem, hle, hall⟩ := ih (min a b)
    simp only [List.foldl_cons]
    refine ⟨?_, hle.trans (min_le_left a b), ?_⟩
    · rcases hmem with h | h
      · rcases le_total a b with hab | hab
        · left; rw [h, min_eq_left hab]
        · right; rw [h, min_eq_right hab]; exact List.mem_cons_self _ _
      · exact Or.inr (List.mem_cons_of_mem _ h)
    · intro x hx
      rcases List.mem_cons.1 hx with rfl | hx
      · exact hle.trans (min_le_right a x)
      · exact hall x hx

theorem foldl_max_spec (l : List Nat) : ∀ a : Nat,
    (l.foldl max a = a ∨ l.foldl max a ∈ l)
    ∧ a ≤ l.foldl max a ∧ ∀ x ∈ l, x ≤ l.foldl max a := by
  induction l with
  | nil => intro a; simp
  | cons b ts ih =>
    intro a
    obtain ⟨hmem, hle, hall⟩ := ih (max a b)
    simp only [List.foldl_cons]
    refine ⟨?_, (le_max_left a b).trans hle, ?_⟩
    · rcases hmem with h | h
      · rcases le_total a b with hab | hab
        · right; rw [h, max_eq_right hab]; exact List.mem_cons_self _ _
        · left; rw [h, max_eq_left hab]
      · exact Or.inr (List.mem_cons_of_mem _ h)
    · intro x hx
      rcases List.mem_cons.1 hx with rfl | hx
      · exact (le_max_right a x).trans hle
      · exact hall x hx

theorem natListMin_spec {l : List Nat} (h : l ≠ []) :
    natListMin l ∈ l ∧ ∀ x ∈ l, natListMin l ≤ x := by
  cases l with
  | nil => exact absurd rfl h
  | cons t ts =>
    obtain ⟨hmem, hle, hall⟩ := foldl_min_spec ts t
    simp only [natListMin]
    refine ⟨?_, ?_⟩
    · rcases hmem with h' | h'
      · rw [h']; exact List.mem_cons_self _ _
      · exact List.mem_cons_of_mem _ h'
    · intro x hx
      rcases List.mem_cons.1 hx with rfl | hx
      · exact hle
      · exact hall x hx

theorem natListMax_spec {l : List Nat} (h : l ≠ []) :
    natListMax l ∈ l ∧ ∀ x ∈ l, x ≤ natListMax l := by
  cases l with
  | nil => exact absurd rfl h
  | cons t ts =>
    obtain ⟨hmem, hle, hall⟩ := foldl_max_spec ts t
    simp only [natListMax]
    refine ⟨?_, ?_⟩
    · rcases hmem with h' | h'
      · rw [h']; exact List.mem_cons_self _ _
      · exact List.mem_cons_of_mem _ h'
    · intro x hx
      rcases List.mem_cons.1 hx with rfl | hx
      · exact hle
      · exact hall x hx

theorem natListMin_eq_of_perm {l1 l2 : List Nat} (hp : List.Perm l1 l2)
    (h : l1 ≠ []) : natListMin l1 = natListMin l2 := by
  have h2 : l2 ≠ [] := by
    intro hc; exact h (List.Perm.eq_nil (hc ▸ hp))
  obtain ⟨hm1, hb1⟩ := natListMin_spec h
  obtain ⟨hm2, hb2⟩ := natListMin_spec h2
  exact le_antisymm (hb1 _ (hp.mem_iff.2 hm2)) (hb2 _ (hp.mem_iff.1 hm1))

theorem natListMax_eq_of_perm {l1 l2 : List Nat} (hp : List.Perm l1 l2)
    (h : l1 ≠ []) : natListMax l1 = natListMax l2 := by
  have h2 : l2 ≠ [] := by
    intro hc; exact h (List.Perm.eq_nil (hc ▸ hp))
  obtain ⟨hm1, hb1⟩ := natListMax_spec h
  obtain ⟨hm2, hb2⟩ := natListMax_spec h2
  exact le_antisymm (hb2 _ (hp.mem_iff.1 hm1)) (hb1 _ (hp.mem_iff.2 hm2))

/-- The delta-event list built by `_build_daily_timeline`: `+1` at each
interval start, `-1` at each interval end, with missing ends substituted
by the current time (`fillna(pd.Timestamp.now())`). -/
def timelineEvents (now : Nat) (df : List DbRec) : List (Nat × Int) :=
  df.map (fun r => (r.start, (1 : Int))) ++ df.map (fun r => (r.finished.getD now, (-1 : Int)))

/-- Sort relation for `events.sort_values('time')`. -/
def evLE (a b : Nat × Int) : Prop := a.1 ≤ b.1

instance : DecidableRel evLE := fun a b => by
  unfold evLE; infer_instance

def sortEvents (l : List (Nat × Int)) : List (Nat × Int) := List.insertionSort evLE l

/-- The per-day status computation `get_status_on_day`: cumulative sum of
deltas with time up to the last second of day `d`, compared with zero. -/
def statusOnDay (evs : List (Nat × Int)) (d : Nat) : Nat :=
  if 0 < ((evs.filter (fun e => decide (e.1 ≤ d * 86400 + 86399))).map Prod.snd).sum
  then 1 else 0

/-- `events['time'].min().normalize()` as a day index. -/
def dailyStartDay (now : Nat) (df : List DbRec) : Nat :=
  natListMin ((sortEvents (timelineEvents now df)).map Prod.fst) / 86400

/-- `events['time'].max().normalize()` as a day index. -/
def dailyEndDay (now : Nat) (df : List DbRec) : Nat :=
  natListMax ((sortEvents (timelineEvents now df)).map Prod.fst) / 86400

/-- Embedding of `DurationAnalysis._build_daily_timeline`:
one `(day, status)` row per calendar day of
`pd.date_range(start_day, end_day, freq='D')`. -/
def buildDailyTimeline (now : Nat) (df : List DbRec) : List (Nat × Nat) :=
  (List.range (dailyEndDay now df - dailyStartDay now df + 1)).map
    (fun i =>
      (dailyStartDay now df + i,
       statusOnDay (sortEvents (timelineEvents now df)) (dailyStartDay now df + i)))

/-- The cumulative delta sum up to a cutoff equals the number of starts
at-or-before it minus the number of (now-substituted) ends at-or-before
it. -/
theorem sum_filter_map_const (g : DbRec → Nat) (v : Int) (c : Nat) (df : List DbRec) :
    (((df.map (fun r => (g r, v))).filter (fun e => decide (e.1 ≤ c))).map Prod.snd).sum
      = v * ((df.filter (fun r => decide (g r ≤ c))).length : Int) := by
  induction df with
  | nil => simp
  | cons r ts ih =>
    by_cases hc : g r ≤ c
    · simp only [List.map_cons, List.filter_cons, decide_eq_true_eq, hc, if_pos,
        List.sum_cons, ih, List.length_cons]
      push_cast
      ring
    · simp [List.filter_cons, hc, ih]

theorem sum_deltas_eq_counts (now : Nat) (df : List DbRec) (c : Nat) :
    (((timelineEvents now df).filter (fun e => decide (e.1 ≤ c))).map Prod.snd).sum
      = ((df.filter (fun r => decide (r.start ≤ c))).length : Int)
        - ((df.filter (fun r => decide (r.finished.getD now ≤ c))).length : Int) := by
  unfold timelineEvents
  rw [List.filter_append, List.map_append, List.sum_append,
    sum_filter_map_const (fun r => r.start) 1 c df,
    sum_filter_map_const (fun r => r.finished.getD now) (-1) c df]
  ring

/-- C6: for a non-empty interval frame of one item, the daily timeline
has exactly one status entry per calendar day from the day of the
earliest delta event to the day of the latest, and a day's status is 1
exactly when the number of starts at-or-before that day's last second
exceeds the number of (now-substituted) ends at-or-before it. -/
theorem claim6_daily_timeline_contract (now : Nat) (df : List DbRec) (hne : df ≠ []) :
    (buildDailyTimeline now df).map Prod.fst
      = List.range' (natListMin ((timelineEvents now df).map Prod.fst) / 86400)
          (natListMax ((timelineEvents now df).map Prod.fst) / 86400
            - natListMin ((timelineEvents now df).map Prod.fst) / 86400 + 1)
    ∧ ∀ p ∈ buildDailyTimeline now df,
        (p.2 = 1 ↔
          0 < ((df.filter (fun r => decide (r.start ≤ p.1 * 86400 + 86399))).length : Int)
            - ((df.filter (fun r => decide (r.finished.getD now ≤ p.1 * 86400 + 86399))).length : Int))
        ∧ (p.2 = 1 ∨ p.2 = 0) := by
  have hpe : List.Perm (sortEvents (timelineEvents now df)) (timelineEvents now df) :=
    List.perm_insertionSort evLE _
  have hne' : (timelineEvents now df).map Prod.fst ≠ [] := by
    unfold timelineEvents
    cases df with
    | nil => exact absurd rfl hne
    | cons r ts => simp
  have hmp : List.Perm ((sortEvents (timelineEvents now df)).map Prod.fst)
      ((timelineEvents now df).map Prod.fst) := hpe.map Prod.fst
  have hsne : ((sortEvents (timelineEvents now df)).map Prod.fst) ≠ [] := by
    intro hc
    apply hne'
    have hlen := hmp.length_eq
    rw [hc] at hlen
    exact List.length_eq_zero.1 hlen.symm
  have hmin : dailyStartDay now df
      = natListMin ((timelineEvents now df).map Prod.fst) / 86400 := by
    unfold dailyStartDay
    rw [natListMin_eq_of_perm hmp hsne]
  have hmax : dailyEndDay now df
      = natListMax ((timelineEvents now df).map Prod.fst) / 86400 := by
    unfold dailyEndDay
    rw [natListMax_eq_of_perm hmp hsne]
  constructor
  · unfold buildDailyTimeline
    rw [List.map_map, hmin, hmax]
    rw [List.range'_eq_map_range]
    rfl
  · intro p hp
    rcases List.mem_map.1 hp with ⟨i, _, hpi⟩
    have hstat : p.2 = statusOnDay (sortEvents (timelineEvents now df)) p.1 := by
      rw [← hpi]
    have hsum :
        (((sortEvents (timelineEvents now df)).filter
            (fun e => decide (e.1 ≤ p.1 * 86400 + 86399))).map Prod.snd).sum
          = ((df.filter (fun r => decide (r.start ≤ p.1 * 86400 + 86399))).length : Int)
            - ((df.filter (fun r => decide (r.finished.getD now ≤ p.1 * 86400 + 86399))).length : Int) := by
      rw [List.Perm.sum_eq
        ((hpe.filter (fun e => decide (e.1 ≤ p.1 * 86400 + 86399))).map Prod.snd)]
      exact sum_deltas_eq_counts now df _
    rw [hstat]
    unfold statusOnDay
    rw [hsum]
    constructor
    · split
      · simp_all
      · simp_all
    · split
      · exact Or.inl rfl
      · exact Or.inr rfl

/-- C6 witness: the contract applied to a one-interval frame (borrowed
10:00-15:00 on day 0): the timeline covers exactly day 0 and reports
status 0 at that day's close. -/
theorem claim6_daily_timeline_contract_witness :
    (buildDailyTimeline 100000
        [{ start := 36000, finished := some 54000, duration := some 5,
           nameWithNum := "CAM-01 3" }]).map Prod.fst
      = List.range' 0 1 :=
  (claim6_daily_timeline_contract 100000
    [{ start := 36000, finished := some 54000, duration := some 5,
       nameWithNum := "CAM-01 3" }] (by decide)).1

/-! ### Claim C7: timestamp parsing (`DataProcessor.parse_dates`) -/

/-- A parsed calendar timestamp, field by field.  Calendar-level
validation beyond simple range checks (such as rejecting February 30) is
not modelled. -/
structure DateTimeVal where
  year : Nat
  month : Nat
  day : Nat
  hour : Nat
  minute : Nat
  second : Nat
  micro : Nat
deriving DecidableEq, Repr

/-- Consume up to `n` leading digits. -/
def takeDigits : Nat → List Char → List Char × List Char
  | 0, cs => ([], cs)
  | _ + 1, [] => ([], [])
  | n + 1, c :: cs =>
    if c.isDigit then
      ((takeDigits n cs).1.cons c, (takeDigits n cs).2)
    else ([], c :: cs)

def digitsToNat (ds : List Char) : Nat :=
  ds.foldl (fun a c => a * 10 + (c.toNat - 48)) 0

/-- Read 1..`maxd` digits as a number (strptime directives accept fewer
digits than the maximal field width). -/
def readNum (maxd : Nat) (cs : List Char) : Option (Nat × List Char) :=
  match takeDigits maxd cs with
  | ([], _) => none
  | (ds, rest) => some (digitsToNat ds, rest)

/-- One strptime directive of the formats declared in
`config/settings.py` `DATE_FORMATS`. -/
inductive FmtTok where
  | y4
  | mo
  | dd
  | hh
  | mi
  | ss
  | frac
  | lit (c : Char)
deriving DecidableEq, Repr

/-- Apply a strptime-style format to the input, requiring the whole
string to be consumed (pandas `format=` matching is exact), with the
usual range checks on each field. -/
def runFmt : List FmtTok → List Char → DateTimeVal → Option DateTimeVal
  | [], [], acc => some acc
  | [], _ :: _, _ => none
  | .lit c :: ts, cs, acc =>
    match cs with
    | c' :: rest => if c' = c then runFmt ts rest acc else none
    | [] => none
  | .y4 :: ts, cs, acc =>
    match readNum 4 cs with
    | some (v, rest) => runFmt ts rest { acc with year := v }
    | none => none
  | .mo :: ts, cs, acc =>
    match readNum 2 cs with
    | some (v, rest) =>
      if 1 ≤ v ∧ v ≤ 12 then runFmt ts rest { acc with month := v } else none
    | none => none
  | .dd :: ts, cs, acc =>
    match readNum 2 cs with
    | some (v, rest) =>
      if 1 ≤ v ∧ v ≤ 31 then runFmt ts rest { acc with day := v } else none
    | none => none
  | .hh :: ts, cs, acc =>
    match readNum 2 cs with
    | some (v, rest) =>
      if v ≤ 23 then runFmt ts rest { acc with hour := v } else none
    | none => none
  | .mi :: ts, cs, acc =>
    match readNum 2 cs with
    | some (v, rest) =>
      if v ≤ 59 then runFmt ts rest { acc with minute := v } else none
    | none => none
  | .ss :: ts, cs, acc =>
    match readNum 2 cs with
    | some (v, rest) =>
      if v ≤ 59 then runFmt ts rest { acc with second := v } else none
    | none => none
  | .frac :: ts, cs, acc =>
    match readNum 6 cs with
    | some (v, rest) => runFmt ts rest { acc with micro := v }
    | none => none

/-- Apply one declared format to a cell (strptime's default fields are
year 1900, month 1, day 1). -/
def parseWithFormat (fmt : List FmtTok) (s : String) : Option DateTimeVal :=
  runFmt fmt s.data { year := 1900, month := 1, day := 1,
                      hour := 0, minute := 0, second := 0, micro := 0 }

/-- `DATE_FORMATS['realtime'] = '%m/%d/%Y %H:%M:%S'`. -/
def fmtRealtime : List FmtTok :=
  [.mo, .lit '/', .dd, .lit '/', .y4, .lit ' ',
   .hh, .lit ':', .mi, .lit ':', .ss]

/-- `'%Y-%m-%d %H:%M:%S.%f'`. -/
def fmtHist1 : List FmtTok :=
  [.y4, .lit '-', .mo, .lit '-', .dd, .lit ' ',
   .hh, .lit ':', .mi, .lit ':', .ss, .lit '.', .frac]

/-- `'%Y-%m-%d %H:%M:%S'`. -/
def fmtHist2 : List FmtTok :=
  [.y4, .lit '-', .mo, .lit '-', .dd, .lit ' ',
   .hh, .lit ':', .mi, .lit ':', .ss]

/-- `'%Y/%m/%d %H:%M:%S'`. -/
def fmtHist3 : List FmtTok :=
  [.y4, .lit '/', .mo, .lit '/', .dd, .lit ' ',
   .hh, .lit ':', .mi, .lit ':', .ss]

/-- `DATE_FORMATS['historical']`, in declared order. -/
def histFormats : List (List FmtTok) := [fmtHist1, fmtHist2, fmtHist3]

/-- The stage-2 loop of `parse_dates`: try each historical format on the
still-unparsed value, stopping at the first success. -/
def tryFormats : List (List FmtTok) → String → Option DateTimeVal
  | [], _ => none
  | f :: fs, s =>
    match parseWithFormat f s with
    | some v => some v
    | none => tryFormats fs s

/-- Embedding of the per-cell behaviour of `DataProcessor.parse_dates`
(src/data/processors/data_processor.py, lines 26-58): first the realtime
format, then each historical format on the still-NaT values, then the
format-inferring `pd.to_datetime` fallback (an external pandas routine,
taken as a parameter); every stage uses `errors='coerce'`, so failure is
the `NaT` sentinel (`none`), never an exception. -/
def parseCell (infer : String → Option DateTimeVal) (s : String) : Option DateTimeVal :=
  match parseWithFormat fmtRealtime s with
  | some v => some v
  | none =>
    match tryFormats histFormats s with
    | some v => some v
    | none => infer s

/-- The column-wise application of `parse_dates` to a batch. -/
def parseDatesColumn (infer : String → Option DateTimeVal) (cells : List String) :
    List (Option DateTimeVal) :=
  cells.map (parseCell infer)

theorem tryFormats_eq_none_iff (s : String) :
    ∀ fs : List (List FmtTok),
      tryFormats fs s = none ↔ ∀ f ∈ fs, parseWithFormat f s = none
  | [] => by simp [tryFormats]
  | f :: fs => by
    rw [tryFormats]
    cases hf : parseWithFormat f s with
    | some v =>
      simp only [List.mem_cons]
      constructor
      · intro h; cases h
      · intro h
        rw [h f (Or.inl rfl)] at hf
        cases hf
    | none =>
      rw [tryFormats_eq_none_iff s fs]
      constructor
      · intro h f' hf'
        rcases List.mem_cons.1 hf' with rfl | hf'
        · exact hf
        · exact h f' hf'
      · intro h f' hf'
        exact h f' (List.mem_cons_of_mem _ hf')

/-- C7 counterexample: the string `'2025-03-04 05:06:07'` does NOT match
the single declared primary (realtime) format, yet it does not become a
sentinel — the cascade parses it with a historical format, so the record
is kept.  Parsing is a multi-format cascade, not one format per source. -/
theorem claim7_single_format_counterexample :
    parseWithFormat fmtRealtime "2025-03-04 05:06:07" = none
    ∧ parseCell (fun _ => none) "2025-03-04 05:06:07"
        = some { year := 2025, month := 3, day := 4,
                 hour := 5, minute := 6, second := 7, micro := 0 } := by
  refine ⟨by decide, by decide⟩

/-- C7 (amended): for every cell of every record (regardless of source),
parsing applies a fixed cascade — the declared realtime format first,
then the declared historical formats in order, then pandas' generic
inference; a value that matches the primary format wins; the sentinel
`NaT` arises exactly when every stage fails; and the batch never raises:
every cell yields a value and the column keeps its length. -/
theorem claim7_parse_cascade (infer : String → Option DateTimeVal) (s : String) :
    (∀ v, parseWithFormat fmtRealtime s = some v → parseCell infer s = some v)
    ∧ (parseCell infer s = none ↔
        parseWithFormat fmtRealtime s = none
        ∧ (∀ f ∈ histFormats, parseWithFormat f s = none)
        ∧ infer s = none)
    ∧ (∀ cells : List String, (parseDatesColumn infer cells).length = cells.length) := by
  refine ⟨?_, ?_, ?_⟩
  · intro v h
    unfold parseCell
    rw [h]
  · unfold parseCell
    cases hr : parseWithFormat fmtRealtime s with
    | some v =>
      simp only []
      constructor
      · intro h; cases h
      · rintro ⟨h, -⟩; cases h
    | none =>
      cases hh : tryFormats histFormats s with
      | some v =>
        simp only []
        constructor
        · intro h; cases h
        · rintro ⟨-, hall, -⟩
          rw [(tryFormats_eq_none_iff s histFormats).2 hall] at hh
          cases hh
      | none =>
        simp only []
        constructor
        · intro h
          exact ⟨by simp, (tryFormats_eq_none_iff s histFormats).1 hh, h⟩
        · rintro ⟨-, -, h⟩
          exact h
  · intro cells
    unfold parseDatesColumn
    exact List.length_map _ _

/-- C7 witness: the amended theorem applied to a realtime-format string:
the primary format succeeds and the cascade returns its value. -/
theorem claim7_parse_cascade_witness :
    parseWithFormat fmtRealtime "03/04/2025 05:06:07"
      = some { year := 2025, month := 3, day := 4,
               hour := 5, minute := 6, second := 7, micro := 0 }
    ∧ parseCell (fun _ => none) "03/04/2025 05:06:07"
      = some { year := 2025, month := 3, day := 4,
               hour := 5, minute := 6, second := 7, micro := 0 } :=
  ⟨by decide,
   (claim7_parse_cascade (fun _ => none) "03/04/2025 05:06:07").1 _ (by decide)⟩

/-! ### Claim C9: duration-based Top-N ranking (`TopNAnalysis.analyze`) -/

inductive TopnMetric where
  | count
  | totalDuration
  | avgDuration
deriving DecidableEq, Repr

/-- The outcome of `TopNAnalysis.analyze`, reduced to the parts the
ranking contract concerns: the success flag with its message, and the
ranked metric series (item name, metric value). -/
inductive TopnOutcome where
  | failure (msg : String)
  | success (series : List (String × Rat))
deriving DecidableEq

def strLEProp (a b : String) : Prop := strLe a b = true

instance : DecidableRel strLEProp := fun a b => by
  unfold strLEProp; infer_instance

/-- Descending order on metric values (`sort_values(ascending=False)`). -/
def valueDesc (a b : String × Rat) : Prop := b.2 ≤ a.2

instance : DecidableRel valueDesc := fun a b => by
  unfold valueDesc; infer_instance

/-- The distinct item names in the ascending order `groupby` uses. -/
def namesSorted (df : List DbRec) : List String :=
  List.insertionSort strLEProp (df.map (fun r => r.nameWithNum)).dedup

/-- Sum of the present durations of one item's rows. -/
def groupSum (df : List DbRec) (n : String) : Int :=
  ((df.filter (fun r => r.nameWithNum == n)).filterMap (fun r => r.duration)).sum

/-- Number of rows of one item. -/
def groupCnt (df : List DbRec) (n : String) : Nat :=
  (df.filter (fun r => r.nameWithNum == n)).length

/-- `value_counts()`: occurrence counts per item, sorted descending. -/
def countSeries (df : List DbRec) : List (String × Rat) :=
  List.insertionSort valueDesc
    ((namesSorted df).map (fun n => (n, (groupCnt df n : Rat))))

/-- `groupby('item name(with num)')[duration].sum()/.mean()`, sorted
descending by value. -/
def durationSeries (m : TopnMetric) (dfD : List DbRec) : List (String × Rat) :=
  List.insertionSort valueDesc
    ((namesSorted dfD).map (fun n =>
      match m with
      | .avgDuration => (n, (groupSum dfD n : Rat) / (groupCnt dfD n : Rat))
      | _ => (n, (groupSum dfD n : Rat))))

/-- Embedding of the metric-selection logic of `TopNAnalysis.analyze`
(src/analysis/strategies/topn_strategy.py, lines 54-96): an empty frame
fails with 'No matching borrow records found'; for the duration metrics
the rows with NA duration are dropped first
(`df[df[duration_col].notna()]`) and an empty remainder fails with the
distinct no-duration message; otherwise the ranked series is computed
from the retained rows. -/
def topnAnalyze (m : TopnMetric) (df : List DbRec) : TopnOutcome :=
  if df.isEmpty then .failure "No matching borrow records found"
  else
    match m with
    | .count => .success (countSeries df)
    | _ =>
      if (df.filter (fun r => r.duration.isSome)).isEmpty then
        .failure "No non-empty duration values; cannot sort by duration"
      else .success (durationSeries m (df.filter (fun r => r.duration.isSome)))

/-- C9: under TotalDuration or AverageDuration, rows with absent duration
are excluded before aggregation — the result only depends on the rows
with a present duration — and when none remain the analysis returns the
distinct unsuccessful no-duration outcome instead of a ranking. -/
theorem claim9_duration_metrics_exclude_missing (m : TopnMetric) (df : List DbRec)
    (hm : m = TopnMetric.totalDuration ∨ m = TopnMetric.avgDuration) :
    ((df ≠ [] ∧ ∀ r ∈ df, r.duration = none) →
      topnAnalyze m df
        = TopnOutcome.failure "No non-empty duration values; cannot sort by duration")
    ∧ ((∃ r ∈ df, r.duration.isSome) →
      topnAnalyze m df = topnAnalyze m (df.filter (fun r => r.duration.isSome))) := by
  constructor
  · rintro ⟨hne, hnone⟩
    have hemp : (df.filter (fun r => r.duration.isSome)).isEmpty = true := by
      rw [List.isEmpty_iff, List.filter_eq_nil]
      intro r hr
      simp [hnone r hr]
    have hdf : df.isEmpty = false := by
      rcases df with _ | ⟨r, ts⟩
      · exact absurd rfl hne
      · rfl
    unfold topnAnalyze
    rw [hdf]
    rcases hm with rfl | rfl
    · simp only [if_neg Bool.false_ne_true, hemp, if_pos]
    · simp only [if_neg Bool.false_ne_true, hemp, if_pos]
  · rintro ⟨r0, hr0, hr0s⟩
    have hfne : (df.filter (fun r => r.duration.isSome)) ≠ [] := by
      intro hc
      have : r0 ∈ df.filter (fun r => r.duration.isSome) :=
        List.mem_filter.2 ⟨hr0, hr0s⟩
      rw [hc] at this
      exact List.not_mem_nil r0 this
    have hfe : (df.filter (fun r => r.duration.isSome)).isEmpty = false := by
      rcases hcc : df.filter (fun r => r.duration.isSome) with _ | ⟨x, xs⟩
      · exact absurd hcc hfne
      · rw [hcc]; rfl
    have hdf : df.isEmpty = false := by
      rcases df with _ | ⟨x, xs⟩
      · exact absurd (List.filter_nil _) hfne
      · rfl
    have hidem : (df.filter (fun r => r.duration.isSome)).filter
        (fun r => r.duration.isSome) = df.filter (fun r => r.duration.isSome) := by
      rw [List.filter_eq_self]
      intro a ha
      exact (List.mem_filter.1 ha).2
    unfold topnAnalyze
    rw [hdf, hfe]
    rcases hm with rfl | rfl
    · simp only [if_neg Bool.false_ne_true, hidem, hfe]
    · simp only [if_neg Bool.false_ne_true, hidem, hfe]

/-- C9 witness: a frame whose single row has no duration makes a
TotalDuration ranking fail with the no-duration message. -/
theorem claim9_duration_metrics_exclude_missing_witness :
    topnAnalyze TopnMetric.totalDuration
        [{ start := 36000, finished := none, duration := none,
           nameWithNum := "CAM-01 3" }]
      = TopnOutcome.failure "No non-empty duration values; cannot sort by duration" :=
  (claim9_duration_metrics_exclude_missing TopnMetric.totalDuration
      [{ start := 36000, finished := none, duration := none,
         nameWithNum := "CAM-01 3" }] (Or.inl rfl)).1
    ⟨by decide, by decide⟩

/-! ### Claim C10: pairing never crosses (NetID, Equipment Name) groups -/

theorem head?_of_filter_mem {p : Row → Bool} {l : List Row} {a : Row}
    (h : (l.filter p).head? = some a) : a ∈ l ∧ p a = true := by
  rcases hfl : l.filter p with _ | ⟨b, t⟩
  · rw [hfl] at h; cases h
  · rw [hfl] at h
    have hba : b = a := by simpa using h
    have hmemf : b ∈ l.filter p := by rw [hfl]; exact List.mem_cons_self _ _
    rw [← hba]
    exact ⟨List.mem_of_mem_filter hmemf, (List.mem_filter.1 hmemf).2⟩

/-- Every record emitted by the matching loop is built from a check-out
of the input check-out list, and — when closed — from a check-in of the
input check-in pool. -/
theorem matchCOs_mem : ∀ (cos cis : List Row) (rec : Rec), rec ∈ matchCOs cos cis →
    (∃ co ∈ cos, rec = openRec co)
    ∨ (∃ co ∈ cos, ∃ ci ∈ cis, rec = closedRec co ci)
  | [], _, rec, h => absurd h (List.not_mem_nil rec)
  | co :: rest, cis, rec, h => by
    revert h
    cases hfl : (cis.filter fun ci => optLt co.time ci.time).head? with
    | some ci =>
      intro h
      simp only [matchCOs, hfl] at h
      rcases List.mem_cons.1 h with rfl | h
      · right
        exact ⟨co, List.mem_cons_self _ _, ci,
          (head?_of_filter_mem hfl).1, rfl⟩
      · rcases matchCOs_mem rest _ rec h with ⟨co', hco', hrec⟩ | ⟨co', hco', ci', hci', hrec⟩
        · exact Or.inl ⟨co', List.mem_cons_of_mem _ hco', hrec⟩
        · exact Or.inr ⟨co', List.mem_cons_of_mem _ hco', ci',
            List.mem_of_mem_filter hci', hrec⟩
    | none =>
      intro h
      simp only [matchCOs, hfl] at h
      rcases List.mem_cons.1 h with rfl | h
      · exact Or.inl ⟨co, List.mem_cons_self _ _, rfl⟩
      · rcases matchCOs_mem rest _ rec h with ⟨co', hco', hrec⟩ | ⟨co', hco', ci', hci', hrec⟩
        · exact Or.inl ⟨co', List.mem_cons_of_mem _ hco', hrec⟩
        · exact Or.inr ⟨co', List.mem_cons_of_mem _ hco', ci', hci', hrec⟩

/-- Provenance of the records of one group's reconstruction. -/
theorem processBorrowRecords_mem (group : List Row) (rec : Rec)
    (h : rec ∈ processBorrowRecords group) :
    (∃ co ∈ group, isCheckOut co = true ∧ rec = openRec co)
    ∨ (∃ co ∈ group, ∃ ci ∈ group,
        isCheckOut co = true ∧ isCheckIn ci = true ∧ rec = closedRec co ci) := by
  unfold processBorrowRecords at h
  split at h
  · exact absurd h (List.not_mem_nil rec)
  · have hperm : List.Perm (sortByTime (group.filter actionValid))
        (group.filter actionValid) := List.perm_insertionSort rowLE _
    have hmem : ∀ x ∈ sortByTime (group.filter actionValid), x ∈ group :=
      fun x hx => List.mem_of_mem_filter (hperm.subset hx)
    rcases matchCOs_mem _ _ rec h with ⟨co, hco, hrec⟩ | ⟨co, hco, ci, hci, hrec⟩
    · exact Or.inl ⟨co, hmem co (List.mem_of_mem_filter hco),
        (List.mem_filter.1 hco).2, hrec⟩
    · exact Or.inr ⟨co, hmem co (List.mem_of_mem_filter hco),
        ci, hmem ci (List.mem_of_mem_filter hci),
        (List.mem_filter.1 hco).2, (List.mem_filter.1 hci).2, hrec⟩

/-- C10: reconstruction partitions the batch by (NetID, Equipment Name)
before pairing — every closed interval arises from a Check Out row and a
Check In row that carry the same borrower NetID and the same item name,
so a Check In under one borrower is never paired with a Check Out under
another, even for the same item at a later time. -/
theorem claim10_pairing_within_borrower_groups (batch : List Row) (rec : Rec)
    (h : rec ∈ groupedReconstruct batch) (t : Nat) (hf : rec.finished = some t) :
    ∃ co ∈ batch, ∃ ci ∈ batch,
      co.netid = ci.netid ∧ co.name = ci.name
      ∧ co.action = "Check Out" ∧ ci.action = "Check In"
      ∧ rec.start = co.time ∧ ci.time = some t ∧ rec.name = co.name := by
  unfold groupedReconstruct at h
  rcases List.mem_join.1 h with ⟨l, hl, hrec⟩
  rcases List.mem_map.1 hl with ⟨k, _, rfl⟩
  rcases processBorrowRecords_mem _ _ hrec with
    ⟨co, hco, _, hrec'⟩ | ⟨co, hco, ci, hci, hcoAct, hciAct, hrec'⟩
  · rw [hrec'] at hf
    simp [openRec] at hf
  · have hcoF := List.mem_filter.1 hco
    have hciF := List.mem_filter.1 hci
    have hkco : rowKey co = k := by
      have := hcoF.2; simpa using this
    have hkci : rowKey ci = k := by
      have := hciF.2; simpa using this
    have hnet : co.netid = ci.netid := by
      have := hkco.trans hkci.symm
      exact congrArg Prod.fst this
    have hname : co.name = ci.name := by
      have := hkco.trans hkci.symm
      exact congrArg Prod.snd this
    have hcoA : co.action = "Check Out" := by
      simpa [isCheckOut] using hcoAct
    have hciA : ci.action = "Check In" := by
      simpa [isCheckIn] using hciAct
    have hcit : ci.time = some t := by
      rw [hrec'] at hf
      simpa [closedRec] using hf
    refine ⟨co, hcoF.1, ci, hciF.1, hnet, hname, hcoA, hciA, ?_, hcit, ?_⟩
    · rw [hrec']; rfl
    · rw [hrec']; rfl


/-- C10 witness: the theorem applied to a concrete two-event batch and
its closed reconstructed record. -/
theorem claim10_pairing_within_borrower_groups_witness :
    ∃ co ∈ [mkRow "alice" "CAM-01" "Check Out" (some 36000),
            mkRow "alice" "CAM-01" "Check In" (some 54000)],
    ∃ ci ∈ [mkRow "alice" "CAM-01" "Check Out" (some 36000),
            mkRow "alice" "CAM-01" "Check In" (some 54000)],
      co.netid = ci.netid ∧ co.name = ci.name
      ∧ co.action = "Check Out" ∧ ci.action = "Check In"
      ∧ ({ start := some 36000, finished := some 54000, duration := some 5,
           name := "CAM-01", category := "Cameras", sheet := "Fall 2025" } : Rec).start = co.time
      ∧ ci.time = some 54000
      ∧ ({ start := some 36000, finished := some 54000, duration := some 5,
           name := "CAM-01", category := "Cameras", sheet := "Fall 2025" } : Rec).name = co.name :=
  claim10_pairing_within_borrower_groups
    [mkRow "alice" "CAM-01" "Check Out" (some 36000),
     mkRow "alice" "CAM-01" "Check In" (some 54000)]
    { start := some 36000, finished := some 54000, duration := some 5,
      name := "CAM-01", category := "Cameras", sheet := "Fall 2025" }
    (by decide) 54000 (by decide)

section Sanity

example :
    processBorrowRecords
      [mkRow "u1" "CAM-01" "Check Out" (some 36000),
       mkRow "u1" "CAM-01" "Check In" (some 54000)] =
    [{ start := some 36000, finished := some 54000, duration := some 5,
       name := "CAM-01", category := "Cameras", sheet := "Fall 2025" }] := by
  decide

example :
    processBorrowRecords
      [mkRow "u1" "CAM-01" "Check Out" (some 32400),
       mkRow "u1" "CAM-01" "Check Out" (some 36000),
       mkRow "u1" "CAM-01" "Check In" (some 39600),
       mkRow "u1" "CAM-01" "Check In" (some 43200)] =
    [{ start := some 32400, finished := some 39600, duration := some 2,
       name := "CAM-01", category := "Cameras", sheet := "Fall 2025" },
     { start := some 36000, finished := some 43200, duration := some 2,
       name := "CAM-01", category := "Cameras", sheet := "Fall 2025" }] := by
  decide

example :
    fifoReconstructSpec
      [mkRow "u1" "CAM-01" "Check Out" (some 32400),
       mkRow "u1" "CAM-01" "Check Out" (some 36000),
       mkRow "u1" "CAM-01" "Check In" (some 39600),
       mkRow "u1" "CAM-01" "Check In" (some 43200)] =
    processBorrowRecords
      [mkRow "u1" "CAM-01" "Check Out" (some 32400),
       mkRow "u1" "CAM-01" "Check Out" (some 36000),
       mkRow "u1" "CAM-01" "Check In" (some 39600),
       mkRow "u1" "CAM-01" "Check In" (some 43200)] := by
  decide

/-- Divergence probe: two check-ins sharing a timestamp. -/
example :
    processBorrowRecords
      [mkRow "u1" "CAM-01" "Check Out" (some 36000),
       mkRow "u1" "CAM-01" "Check Out" (some 39600),
       mkRow "u1" "CAM-01" "Check In" (some 43200),
       mkRow "u1" "CAM-01" "Check In" (some 43200)] ≠
    fifoReconstructSpec
      [mkRow "u1" "CAM-01" "Check Out" (some 36000),
       mkRow "u1" "CAM-01" "Check Out" (some 39600),
       mkRow "u1" "CAM-01" "Check In" (some 43200),
       mkRow "u1" "CAM-01" "Check In" (some 43200)] := by
  decide

end Sanity
